import Mathlib

/-!
Verification of the langflow knowledge-base ingestion subsystem.

Shallow embedding of:
- `services/database/models/jobs/model.py` (Job record, JobStatus, JobType)
- `services/database/models/jobs/crud.py` (get_job_by_job_id, update_job_status,
  get_latest_jobs_by_asset_ids)
- `services/jobs/service.py` (JobService: create_job, update_job_status,
  execute_with_status)
- `api/v1/knowledge_bases.py` (cancel_ingestion status logic,
  get_knowledge_base_chunks pagination)
- `api/utils/kb_helpers.py` (KBAnalysisHelper.get_metadata,
  KBIngestionHelper.perform_ingestion retry/cancellation/rollback core)

The database is a list of Job records; wall-clock time is passed explicitly;
the vector store is a list of chunk documents; cancellation polls and write
failures are oracles indexed by the order in which the code performs them.
-/

namespace Langflow

/-- JobStatus enum from model.py. -/
inductive JobStatus
  | queued
  | in_progress
  | completed
  | failed
  | cancelled
  | timed_out
deriving DecidableEq, Repr

/-- The string value of each JobStatus member, as in the Python enum. -/
def JobStatus.value : JobStatus → String
  | .queued => "queued"
  | .in_progress => "in_progress"
  | .completed => "completed"
  | .failed => "failed"
  | .cancelled => "cancelled"
  | .timed_out => "timed_out"

/-- A status is terminal when it is COMPLETED, FAILED, CANCELLED or TIMED_OUT. -/
def JobStatus.isTerminal : JobStatus → Bool
  | .completed => true
  | .failed => true
  | .cancelled => true
  | .timed_out => true
  | _ => false

/-- JobType enum from model.py. -/
inductive JobType
  | workflow
  | ingestion
  | evaluation
deriving DecidableEq, Repr

/-- Job row from model.py (UUIDs modelled as Nat, datetimes as Nat ticks). -/
structure Job where
  job_id : Nat
  flow_id : Nat
  status : JobStatus
  created_timestamp : Nat
  finished_timestamp : Option Nat
  type : JobType
  user_id : Option Nat
  asset_id : Option Nat
  asset_type : Option String
deriving DecidableEq, Repr

/-- crud.get_job_by_job_id: first row whose job_id matches. -/
def getJobByJobId (db : List Job) (jobId : Nat) : Option Job :=
  db.find? (fun j => j.job_id == jobId)

/-- crud.update_job_status: fetch the job, set its status, flush.
Returns the updated table and the updated row (None when absent). -/
def crudUpdateJobStatus (db : List Job) (jobId : Nat) (status : JobStatus) :
    List Job × Option Job :=
  match getJobByJobId db jobId with
  | none => (db, none)
  | some job =>
      (db.map (fun j => if j.job_id == jobId then { j with status := status } else j),
       some { job with status := status })

/-- JobService.update_job_status: crud update, then if the finished flag is
set, stamp finished_timestamp with the current time (`now`). -/
def serviceUpdateJobStatus (db : List Job) (jobId : Nat) (status : JobStatus)
    (finishedFlag : Bool) (now : Nat) : List Job × Option Job :=
  match crudUpdateJobStatus db jobId status with
  | (db1, none) => (db1, none)
  | (db1, some job) =>
      if finishedFlag then
        (db1.map (fun j =>
            if j.job_id == jobId then { j with finished_timestamp := some now } else j),
         some { job with finished_timestamp := some now })
      else
        (db1, some job)

/-- JobService.create_job: insert a row with status QUEUED and no finished
timestamp; created_timestamp defaults to the current time. -/
def createJob (db : List Job) (jobId flowId : Nat) (jobType : JobType)
    (assetId : Option Nat) (assetType : Option String) (now : Nat) :
    List Job × Job :=
  let job : Job :=
    { job_id := jobId, flow_id := flowId, status := .queued,
      created_timestamp := now, finished_timestamp := none, type := jobType,
      user_id := none, asset_id := assetId, asset_type := assetType }
  (db ++ [job], job)

/-- The terminal outcome of the work wrapped by
JobService.execute_with_status: normal return, AssertionError,
asyncio.TimeoutError, user-initiated CancelledError (args[0] ==
LANGFLOW_USER_CANCELLED), system-initiated CancelledError, or any other
exception. -/
inductive ExecOutcome
  | success
  | assertionError
  | timeout
  | userCancelled
  | systemCancelled
  | failure
deriving DecidableEq, Repr

/-- The terminal status execute_with_status assigns for each outcome. -/
def ExecOutcome.terminalStatus : ExecOutcome → JobStatus
  | .success => .completed
  | .assertionError => .failed
  | .timeout => .timed_out
  | .userCancelled => .cancelled
  | .systemCancelled => .failed
  | .failure => .failed

/-- JobService.execute_with_status effect on the jobs table: set IN_PROGRESS
(no finished stamp) before running the work, then set the outcome's terminal
status with finished_timestamp=True. -/
def executeWithStatus (db : List Job) (jobId : Nat) (outcome : ExecOutcome)
    (nowStart nowEnd : Nat) : List Job :=
  let db1 := (serviceUpdateJobStatus db jobId .in_progress false nowStart).1
  (serviceUpdateJobStatus db1 jobId outcome.terminalStatus true nowEnd).1

/-- An operation allowed for a job table: create a job, or run it through the
execute_with_status lifecycle wrapper. These are the operations whose
compositions keep the finished-timestamp invariant. -/
inductive SafeOp
  | create (jobId flowId : Nat) (jobType : JobType) (assetId : Option Nat)
      (assetType : Option String) (now : Nat)
  | run (jobId : Nat) (outcome : ExecOutcome) (nowStart nowEnd : Nat)
deriving DecidableEq, Repr

/-- Apply one SafeOp to a jobs table. -/
def applySafeOp (db : List Job) : SafeOp → List Job
  | .create jobId flowId jobType assetId assetType now =>
      (createJob db jobId flowId jobType assetId assetType now).1
  | .run jobId outcome nowStart nowEnd =>
      executeWithStatus db jobId outcome nowStart nowEnd

/-- Apply a sequence of SafeOps left to right. -/
def applySafeOps (db : List Job) (ops : List SafeOp) : List Job :=
  ops.foldl applySafeOp db

/-- The spec's data-model invariant: finished_timestamp is set iff the status
is terminal. -/
def jobsInvariant (db : List Job) : Prop :=
  ∀ j ∈ db, j.finished_timestamp ≠ none ↔ j.status.isTerminal = true

instance (db : List Job) : Decidable (jobsInvariant db) := by
  unfold jobsInvariant
  infer_instance

/-- Descending order on created_timestamp (what ORDER BY created_timestamp
DESC yields). -/
def createdDesc (a b : Job) : Prop :=
  b.created_timestamp ≤ a.created_timestamp

instance : DecidableRel createdDesc := fun a b =>
  Nat.decLe b.created_timestamp a.created_timestamp

instance : IsTotal Job createdDesc :=
  ⟨fun a b => (Nat.le_total a.created_timestamp b.created_timestamp).symm⟩

instance : IsTrans Job createdDesc :=
  ⟨fun _ _ _ hab hbc => Nat.le_trans hbc hab⟩

/-- A database session carrying the jobs table and the number of SELECT
round-trips executed so far. -/
structure DBSession where
  jobs : List Job
  queries : Nat
deriving Repr

/-- One SELECT round-trip: filter rows by a predicate, optionally ordered by
created_timestamp descending, counting one query. -/
def execSelect (s : DBSession) (pred : Job → Bool) (sortDesc : Bool) :
    List Job × DBSession :=
  (let rows := s.jobs.filter pred
   if sortDesc then rows.insertionSort createdDesc else rows,
   { s with queries := s.queries + 1 })

/-- The dict-building loop of crud.get_latest_jobs_by_asset_ids: walk the
descending-ordered rows, keeping the first row seen for each asset_id
(skipping rows with no asset_id). -/
def latestFold : List Job → List (Nat × Job) → List (Nat × Job)
  | [], acc => acc
  | j :: rest, acc =>
      match j.asset_id with
      | some a =>
          if (acc.lookup a).isSome then latestFold rest acc
          else latestFold rest (acc ++ [(a, j)])
      | none => latestFold rest acc

/-- crud.get_latest_jobs_by_asset_ids: empty input short-circuits to an empty
map with no query; otherwise one SELECT of all jobs whose asset_id is in the
list, ordered by created_timestamp DESC, folded into a first-wins map. -/
def getLatestJobsByAssetIds (s : DBSession) (assetIds : List Nat) :
    List (Nat × Job) × DBSession :=
  if assetIds.isEmpty then ([], s)
  else
    let (allJobs, s1) := execSelect s
      (fun j => match j.asset_id with
        | some a => assetIds.contains a
        | none => false) true
    (latestFold allJobs [], s1)

/-- An HTTPException as raised by the endpoints: status code and detail. -/
structure HTTPError where
  status_code : Nat
  detail : String
deriving DecidableEq, Repr

/-- The status strings the cancel_ingestion endpoint treats as
non-cancellable. -/
def terminalStatusStrings : List String :=
  ["completed", "failed", "cancelled", "timed_out"]

/-- The job-state core of the cancel_ingestion endpoint
(api/v1/knowledge_bases.py): look up the latest job for the asset id; 404 when
there is none; 400 when its status string is terminal (detail mentions that
status); otherwise revoke the task and set status CANCELLED with NO finished
stamp. The chunk cleanup touches the vector store, not the jobs table. -/
def cancelIngestion (db : List Job) (assetId : Nat) (now : Nat) :
    Except HTTPError (List Job) :=
  match ((getLatestJobsByAssetIds ⟨db, 0⟩ [assetId]).1.lookup assetId) with
  | none => .error ⟨404, "No ingestion job found for the knowledge base"⟩
  | some job =>
      let s := job.status.value
      if terminalStatusStrings.contains s then
        .error ⟨400, "Cannot cancel job with status " ++ s⟩
      else
        .ok (serviceUpdateJobStatus db job.job_id .cancelled false now).1

/-- A JSON value as far as the metadata document needs: string, number, null,
or array of strings. avg_chunk_size 0.0 is modelled as num 0. -/
inductive JVal
  | str (s : String)
  | num (n : Nat)
  | null
  | arr (l : List String)
deriving DecidableEq, Repr

/-- A JSON object document: association list with unique keys (Python dict). -/
abbrev MetaDoc := List (String × JVal)

/-- Dict read: metadata.get(key). -/
def docGet (d : MetaDoc) (k : String) : Option JVal :=
  d.lookup k

/-- Dict write: metadata[key] = v (overwrite in place, else append). -/
def docInsert (d : MetaDoc) (k : String) (v : JVal) : MetaDoc :=
  if (d.lookup k).isSome then
    d.map (fun p => if p.1 = k then (k, v) else p)
  else
    d ++ [(k, v)]

/-- The `defaults` dict of KBAnalysisHelper.get_metadata; the fresh uuid4 for
the id default is passed in. -/
def metadataDefaults (freshId : String) : MetaDoc :=
  [("chunks", .num 0), ("words", .num 0), ("characters", .num 0),
   ("avg_chunk_size", .num 0), ("embedding_provider", .str "Unknown"),
   ("embedding_model", .str "Unknown"), ("id", .str freshId),
   ("size", .num 0), ("source_types", .arr []), ("chunk_size", .null),
   ("chunk_overlap", .null), ("separator", .null)]

/-- Python truthiness test used for the id field: `not metadata["id"]`. -/
def jvalFalsy : JVal → Bool
  | .str s => s = ""
  | .num n => n = 0
  | .null => true
  | .arr l => l.isEmpty

/-- The default-filling loop of get_metadata: for each defaults key, install
the default when the key is absent or (for id) the stored value is falsy. -/
def fillDefaults (doc : MetaDoc) : MetaDoc → MetaDoc
  | [] => doc
  | (k, v) :: rest =>
      let doc1 :=
        if (docGet doc k).isNone || (k == "id" && (docGet doc k).all jvalFalsy) then
          docInsert doc k v
        else doc
      fillDefaults doc1 rest

/-- On-disk state of embedding_metadata.json: none = file missing,
some none = file exists but is not valid JSON, some (some d) = parsed
document d. -/
abbrev DiskMeta := Option (Option MetaDoc)

/-- Result of get_metadata: the returned document, the resulting on-disk
state, and whether a disk write happened. -/
structure MetadataResult where
  doc : MetaDoc
  disk : DiskMeta
  wrote : Bool
deriving DecidableEq

/-- Does the document hold every key of the defaults dict
(`all(k in metadata for k in defaults)`)? -/
def hasAllRequiredKeys (d : MetaDoc) (freshId : String) : Bool :=
  (metadataDefaults freshId).all (fun p => (docGet d p.1).isSome)

/-- Does the document carry the sentinel in embedding_provider or
embedding_model? -/
def metaHasUnknowns (d : MetaDoc) : Bool :=
  (docGet d "embedding_provider" == some (.str "Unknown")) ||
  (docGet d "embedding_model" == some (.str "Unknown"))

/-- Backfill step 1: fill defaults for missing keys (and a falsy id). -/
def backfillStep1 (d : MetaDoc) (freshId : String) : MetaDoc :=
  fillDefaults d (metadataDefaults freshId)

/-- Backfill step 2: metadata["size"] = total directory size. -/
def backfillStep2 (d : MetaDoc) (dirSize : Nat) (freshId : String) : MetaDoc :=
  docInsert (backfillStep1 d freshId) "size" (.num dirSize)

/-- Backfill step 3: re-detect the provider when still Unknown. -/
def backfillStep3 (d : MetaDoc) (dirSize : Nat) (dp freshId : String) :
    MetaDoc :=
  if docGet (backfillStep2 d dirSize freshId) "embedding_provider"
      == some (.str "Unknown") then
    docInsert (backfillStep2 d dirSize freshId) "embedding_provider" (.str dp)
  else backfillStep2 d dirSize freshId

/-- Backfill step 4: re-detect the model when still Unknown. -/
def backfillStep4 (d : MetaDoc) (dirSize : Nat) (dp dm freshId : String) :
    MetaDoc :=
  if docGet (backfillStep3 d dirSize dp freshId) "embedding_model"
      == some (.str "Unknown") then
    docInsert (backfillStep3 d dirSize dp freshId) "embedding_model" (.str dm)
  else backfillStep3 d dirSize dp freshId

/-- KBAnalysisHelper.get_metadata. Environment inputs that the Python code
reads from the file system are parameters: the on-disk document state, the
directory size, the results the provider/model detection heuristics would
produce, and the fresh uuid4 used for the id default. -/
def getMetadata (fast : Bool) (disk : DiskMeta) (dirSize : Nat)
    (detectProvider detectModel : String) (freshId : String) : MetadataResult :=
  let fileExists := disk.isSome
  let metadata : MetaDoc :=
    match disk with
    | some (some d) => d
    | _ => []
  let missingKeys := ! hasAllRequiredKeys metadata freshId
  let hasUnknowns := metaHasUnknowns metadata
  if fast && ! missingKeys then
    ⟨metadata, disk, false⟩
  else
    let backfillNeeded := ! fileExists || missingKeys || (! fast && hasUnknowns)
    if backfillNeeded then
      let m4 := backfillStep4 metadata dirSize detectProvider detectModel freshId
      ⟨m4, some (some m4), true⟩
    else
      ⟨metadata, disk, false⟩

/-- One record of the chroma collection: id, document text, raw metadata. -/
structure ChunkRecord where
  id : String
  document : String
  meta : String
deriving DecidableEq, Repr

/-- ChunkInfo response item of the chunks endpoint. -/
structure ChunkInfo where
  id : String
  content : String
  char_count : Nat
  metadata : String
deriving DecidableEq, Repr

/-- PaginatedChunkResponse of the chunks endpoint. -/
structure PaginatedChunkResponse where
  chunks : List ChunkInfo
  total : Nat
  page : Nat
  limit : Nat
  total_pages : Nat
deriving DecidableEq, Repr

/-- Is `needle` a prefix of `hay` (character lists)? -/
def isPrefixOfChars : List Char → List Char → Bool
  | [], _ => true
  | _ :: _, [] => false
  | a :: as, b :: bs => a == b && isPrefixOfChars as bs

/-- Does `hay` contain `needle` as a contiguous run (character lists)? -/
def containsChars (needle : List Char) : List Char → Bool
  | [] => isPrefixOfChars needle []
  | c :: t => isPrefixOfChars needle (c :: t) || containsChars needle t

/-- Substring containment, the semantics of the chroma where_document
$contains filter. -/
def strContains (hay needle : String) : Bool :=
  containsChars needle.data hay.data

/-- Python str.strip(): drop leading and trailing whitespace. -/
def strStrip (s : String) : String :=
  ⟨((s.data.dropWhile Char.isWhitespace).reverse.dropWhile
      Char.isWhitespace).reverse⟩

/-- Build one ChunkInfo from a stored record (content falls back to the empty
string in Python only when the document is None; documents here are total). -/
def toChunkInfo (c : ChunkRecord) : ChunkInfo :=
  ⟨c.id, c.document, c.document.length, c.meta⟩

/-- get_knowledge_base_chunks (api/v1/knowledge_bases.py): empty response when
the KB has no physical data; with a non-empty stripped search term, fetch the
full matching set once and slice it in memory; otherwise count the store and
use native offset/limit pagination; total_pages is ceiling division, 0 when
total is 0. The endpoint validates page >= 1 and 1 <= limit <= 100. -/
def getKnowledgeBaseChunks (hasData : Bool) (store : List ChunkRecord)
    (page limit : Nat) (search : String) : PaginatedChunkResponse :=
  if ¬ hasData then
    ⟨[], 0, page, limit, 0⟩
  else
    let searchTerm := strStrip search
    let offset := (page - 1) * limit
    let pair :=
      if searchTerm ≠ "" then
        let allResults := store.filter (fun c => strContains c.document searchTerm)
        (allResults.length, (allResults.drop offset).take limit)
      else
        (store.length, (store.drop offset).take limit)
    let totalCount := pair.1
    let chunks := pair.2.map toChunkInfo
    ⟨chunks, totalCount, page, limit,
     if totalCount > 0 then (totalCount + limit - 1) / limit else 0⟩

/-- Modelled from the spec: the retry ceiling MAX_RETRY_ATTEMPTS imported from
langflow.utils.kb_constants, whose source module is not in the reviewed tree;
the spec's retry property fixes the ceiling at 3. -/
def MAX_RETRY_ATTEMPTS : Nat := 3

/-- One document written to the vector store by perform_ingestion, with the
metadata fields the code attaches. -/
structure ChunkDoc where
  page_content : String
  source : String
  file_name : String
  chunk_index : Nat
  total_chunks : Nat
  job_id : String
deriving DecidableEq, Repr

/-- Mutable state threaded through perform_ingestion: the vector store
contents, how many cancellation polls and write invocations have happened
(indexing the oracles), a log of successful batch writes tagged with the
index of the cancellation poll that guarded each one, and the backoff sleeps
performed. -/
structure IngState where
  store : List ChunkDoc
  checkIdx : Nat
  writeIdx : Nat
  writeLog : List (Nat × List ChunkDoc)
  sleeps : List Nat
deriving DecidableEq, Repr

/-- How one batch write loop ends: break on success, IngestionCancelledError,
or the final attempt re-raising the write error. -/
inductive BatchOutcome
  | success
  | cancelled
  | failed
deriving DecidableEq, Repr

/-- The retry loop of perform_ingestion
(`for attempt in range(MAX_RETRY_ATTEMPTS)`): before every attempt poll
cancellation (raise IngestionCancelledError when the job is CANCELLED); try
the write and break; on failure re-raise when this was the final attempt,
otherwise sleep (attempt+1) * backoffMult and retry. `remaining` counts the
attempts left (initially maxAttempts); `cancelledAt n` is the result of the
n-th cancellation poll; `writeFails n` tells whether the n-th write
invocation raises. -/
def attemptLoop (cancelledAt writeFails : Nat → Bool) (backoffMult maxAttempts : Nat)
    (docs : List ChunkDoc) : Nat → IngState → BatchOutcome × IngState
  | 0, st => (.failed, st)
  | r + 1, st =>
      if cancelledAt st.checkIdx then
        (.cancelled, { st with checkIdx := st.checkIdx + 1 })
      else
        let st1 := { st with checkIdx := st.checkIdx + 1 }
        if writeFails st1.writeIdx then
          let st2 := { st1 with writeIdx := st1.writeIdx + 1 }
          if r = 0 then
            (.failed, st2)
          else
            attemptLoop cancelledAt writeFails backoffMult maxAttempts docs r
              { st2 with sleeps := st2.sleeps ++ [(maxAttempts - r) * backoffMult] }
        else
          (.success,
           { st1 with
              store := st1.store ++ docs,
              writeIdx := st1.writeIdx + 1,
              writeLog := st1.writeLog ++ [(st.checkIdx, docs)] })

/-- Batch slicing worker: each step consumes one batch of bsPred+1 chunks;
the fuel argument (at least the list length) only bounds the number of
steps, keeping the recursion structural. -/
def mkBatchesFuel (bsPred : Nat) : Nat → List String → Nat →
    List (Nat × List String)
  | 0, _, _ => []
  | _ + 1, [], _ => []
  | fuel + 1, c :: rest, start =>
      (start, c :: rest.take bsPred) ::
        mkBatchesFuel bsPred fuel (rest.drop bsPred) (start + bsPred + 1)

/-- Batch slicing, range(0, len(chunks), INGESTION_BATCH_SIZE): split the
chunk list into consecutive batches of size bsPred+1 (the +1 makes the batch
size positive by construction), each paired with its start offset. -/
def mkBatches (bsPred : Nat) (chunks : List String) (start : Nat) :
    List (Nat × List String) :=
  mkBatchesFuel bsPred chunks.length chunks start

/-- Build the Document list for one batch: chunk_index is the batch start
offset plus the intra-batch index; source is source_name, falling back to the
file name when source_name is empty. -/
def mkDocsFrom (src fileName jobId : String) (totalChunks : Nat) :
    Nat → List String → List ChunkDoc
  | _, [] => []
  | idx, c :: cs =>
      ⟨c, src, fileName, idx, totalChunks, jobId⟩ ::
        mkDocsFrom src fileName jobId totalChunks (idx + 1) cs

/-- Documents for one (start, batch) slice of a file. -/
def mkBatchDocs (sourceName fileName jobId : String) (totalChunks : Nat)
    (b : Nat × List String) : List ChunkDoc :=
  mkDocsFrom (if sourceName = "" then fileName else sourceName)
    fileName jobId totalChunks b.1 b.2

/-- The per-file batch loop of perform_ingestion: before each batch poll
cancellation (raise IngestionCancelledError when CANCELLED), then run the
retry loop for the batch's documents; stop on the first non-success. The
0.01s inter-batch pacing sleep is not a backoff sleep and is not recorded. -/
def batchLoop (cancelledAt writeFails : Nat → Bool) (backoffMult maxAttempts : Nat)
    (mkDocs : Nat × List String → List ChunkDoc) :
    List (Nat × List String) → IngState → BatchOutcome × IngState
  | [], st => (.success, st)
  | b :: rest, st =>
      if cancelledAt st.checkIdx then
        (.cancelled, { st with checkIdx := st.checkIdx + 1 })
      else
        let st1 := { st with checkIdx := st.checkIdx + 1 }
        match attemptLoop cancelledAt writeFails backoffMult maxAttempts
            (mkDocs b) maxAttempts st1 with
        | (.success, st2) =>
            batchLoop cancelledAt writeFails backoffMult maxAttempts mkDocs rest st2
        | (out, st2) => (out, st2)

/-- The file loop of perform_ingestion: skip files whose decoded content
strips to empty (they contribute no chunks and are not counted as processed);
split the rest, write their batches, and on success accumulate the processed
file count and created chunk count. `splitter` is the pure
RecursiveCharacterTextSplitter.split_text. -/
def fileLoop (cancelledAt writeFails : Nat → Bool)
    (backoffMult maxAttempts bsPred : Nat) (splitter : String → List String)
    (sourceName jobId : String) :
    List (String × String) → IngState → Nat → Nat →
    BatchOutcome × IngState × Nat × Nat
  | [], st, filesProcessed, chunksCreated =>
      (.success, st, filesProcessed, chunksCreated)
  | (fileName, content) :: rest, st, filesProcessed, chunksCreated =>
      if strStrip content = "" then
        fileLoop cancelledAt writeFails backoffMult maxAttempts bsPred splitter
          sourceName jobId rest st filesProcessed chunksCreated
      else
        let chunks := splitter content
        match batchLoop cancelledAt writeFails backoffMult maxAttempts
            (mkBatchDocs sourceName fileName jobId chunks.length)
            (mkBatches bsPred chunks 0) st with
        | (.success, st2) =>
            fileLoop cancelledAt writeFails backoffMult maxAttempts bsPred splitter
              sourceName jobId rest st2 (filesProcessed + 1)
              (chunksCreated + chunks.length)
        | (out, st2) => (out, st2, filesProcessed, chunksCreated)

/-- The overall result of perform_ingestion: the success dict (files
processed, chunks created), the distinguished Job-cancelled return value, or
a re-raised exception. -/
inductive IngOutcome
  | ok (filesProcessed chunksCreated : Nat)
  | cancelled
  | err
deriving DecidableEq, Repr

/-- cleanup_chroma_chunks_by_job: delete from the store every document whose
metadata job_id equals the given job id. -/
def rollbackByJob (jobId : String) (store : List ChunkDoc) : List ChunkDoc :=
  store.filter (fun d => d.job_id != jobId)

/-- KBIngestionHelper.perform_ingestion, restricted to its vector-store and
control-flow behaviour (embedding resolution, metadata recompute and logging
are orthogonal to the claims settled here): run the file loop from an
initial store; on success return the stats; on IngestionCancelledError run
the job-id rollback and return the distinguished cancelled result; on a
write error run the rollback and re-raise. -/
def performIngestion (cancelledAt writeFails : Nat → Bool)
    (backoffMult maxAttempts bsPred : Nat) (splitter : String → List String)
    (files : List (String × String)) (sourceName jobId : String)
    (store0 : List ChunkDoc) : IngOutcome × IngState :=
  match fileLoop cancelledAt writeFails backoffMult maxAttempts bsPred splitter
      sourceName jobId files ⟨store0, 0, 0, [], []⟩ 0 0 with
  | (.success, st, filesProcessed, chunksCreated) =>
      (.ok filesProcessed chunksCreated, st)
  | (.cancelled, st, _, _) =>
      (.cancelled, { st with store := rollbackByJob jobId st.store })
  | (.failed, st, _, _) =>
      (.err, { st with store := rollbackByJob jobId st.store })

/-- Left-biased choice on options (semantics of dict get-with-fallback used
in the lookup lemmas). -/
def oor {α : Type} : Option α → Option α → Option α
  | some v, _ => some v
  | none, y => y

/-- A sample in-progress ingestion job for asset 7. -/
def sampleJobInProgress : Job :=
  { job_id := 1, flow_id := 2, status := .in_progress, created_timestamp := 3,
    finished_timestamp := none, type := .ingestion, user_id := none,
    asset_id := some 7, asset_type := some "kb" }

/-- A sample completed (terminal) job for asset 7. -/
def sampleJobCompleted : Job :=
  { sampleJobInProgress with status := .completed, finished_timestamp := some 4 }

/-- A second, later job for asset 7 (created at tick 4, already completed). -/
def sampleJobCompleted2 : Job :=
  { job_id := 9, flow_id := 2, status := .completed, created_timestamp := 4,
    finished_timestamp := some 6, type := .ingestion, user_id := none,
    asset_id := some 7, asset_type := some "kb" }

/-- A complete metadata document with no Unknown sentinels and size 7. -/
def sampleFullMetaDoc : MetaDoc :=
  [("chunks", .num 5), ("words", .num 10), ("characters", .num 50),
   ("avg_chunk_size", .num 10), ("embedding_provider", .str "OpenAI"),
   ("embedding_model", .str "text-embedding-3-small"), ("id", .str "abc"),
   ("size", .num 7), ("source_types", .arr ["txt"]), ("chunk_size", .num 100),
   ("chunk_overlap", .num 10), ("separator", .null)]

/-- A store of 25 chunk records for the pagination scenarios. -/
def sampleStore25 : List ChunkRecord :=
  (List.range 25).map (fun i => ⟨toString i, "doc" ++ toString i, ""⟩)

/-- A two-chunk document batch for the retry scenarios. -/
def sampleDocs : List ChunkDoc :=
  [⟨"hello", "src", "a.txt", 0, 2, "J"⟩, ⟨"world", "src", "a.txt", 1, 2, "J"⟩]

/-- The row transformation of crud.update_job_status: set status on the
matching row. -/
def updNoFin (jobId : Nat) (status : JobStatus) (x : Job) : Job :=
  if x.job_id == jobId then { x with status := status } else x

/-- The row transformation of JobService.update_job_status with the finished
flag: set status and stamp finished_timestamp on the matching row. -/
def updFin (jobId : Nat) (status : JobStatus) (now : Nat) (x : Job) : Job :=
  if x.job_id == jobId then
    { x with status := status, finished_timestamp := some now }
  else x

/- ------------------------------------------------------------------ -/
/- Theorems.                                                          -/
/- ------------------------------------------------------------------ -/

theorem getJobByJobId_map (db : List Job) (f : Job → Job) (jobId : Nat)
    (hf : ∀ x, (f x).job_id = x.job_id) :
    getJobByJobId (db.map f) jobId = (getJobByJobId db jobId).map f := by
  induction db with
  | nil => rfl
  | cons j t ih =>
      by_cases h : (j.job_id == jobId) = true
      · have hfj : ((f j).job_id == jobId) = true := by
          rw [hf]; exact h
        simp [getJobByJobId, List.find?_cons_of_pos, h, hfj]
      · have hfj : ((f j).job_id == jobId) = false := by
          rw [hf]; exact Bool.not_eq_true _ ▸ (by simpa using h)
        simp only [getJobByJobId, List.map_cons] at *
        rw [List.find?_cons_of_neg, List.find?_cons_of_neg]
        · exact ih
        · simpa using h
        · simpa using hfj

theorem crudUpdate_none {db : List Job} {jobId : Nat} (status : JobStatus)
    (h : getJobByJobId db jobId = none) :
    crudUpdateJobStatus db jobId status = (db, none) := by
  unfold crudUpdateJobStatus
  rw [h]

theorem crudUpdate_found {db : List Job} {jobId : Nat} {j : Job} (status : JobStatus)
    (h : getJobByJobId db jobId = some j) :
    crudUpdateJobStatus db jobId status =
      (db.map (fun x => if x.job_id == jobId then { x with status := status } else x),
       some { j with status := status }) := by
  unfold crudUpdateJobStatus
  rw [h]

theorem serviceUpdate_none {db : List Job} {jobId : Nat} (status : JobStatus)
    (flag : Bool) (now : Nat) (h : getJobByJobId db jobId = none) :
    serviceUpdateJobStatus db jobId status flag now = (db, none) := by
  unfold serviceUpdateJobStatus
  rw [crudUpdate_none status h]

theorem serviceUpdate_found_nofin {db : List Job} {jobId : Nat} {j : Job}
    (status : JobStatus) (now : Nat) (h : getJobByJobId db jobId = some j) :
    serviceUpdateJobStatus db jobId status false now =
      (db.map (updNoFin jobId status), some { j with status := status }) := by
  unfold serviceUpdateJobStatus updNoFin
  rw [crudUpdate_found status h]
  simp

theorem map_if_job_comp (db : List Job) (jobId : Nat) (f g : Job → Job)
    (hf : ∀ x, (f x).job_id = x.job_id) :
    (db.map (fun x => if x.job_id == jobId then f x else x)).map
        (fun x => if x.job_id == jobId then g x else x)
      = db.map (fun x => if x.job_id == jobId then g (f x) else x) := by
  rw [List.map_map]
  apply congrArg (fun h => List.map h db)
  funext x
  by_cases h : (x.job_id == jobId) = true
  · have hfx : ((f x).job_id == jobId) = true := by rw [hf]; exact h
    simp [Function.comp, h, hfx]
  · simp [Function.comp, h]

theorem serviceUpdate_found_fin {db : List Job} {jobId : Nat} {j : Job}
    (status : JobStatus) (now : Nat) (h : getJobByJobId db jobId = some j) :
    serviceUpdateJobStatus db jobId status true now =
      (db.map (updFin jobId status now),
       some { j with status := status, finished_timestamp := some now }) := by
  unfold serviceUpdateJobStatus
  rw [crudUpdate_found status h]
  simp only [if_pos]
  have := map_if_job_comp db jobId (fun x => { x with status := status })
      (fun x => { x with finished_timestamp := some now }) (fun _ => rfl)
  unfold updFin
  rw [this]

theorem updNoFin_job_id (jobId : Nat) (status : JobStatus) (x : Job) :
    (updNoFin jobId status x).job_id = x.job_id := by
  unfold updNoFin
  by_cases h : (x.job_id == jobId) = true <;> simp [h]

theorem updFin_job_id (jobId : Nat) (status : JobStatus) (now : Nat) (x : Job) :
    (updFin jobId status now x).job_id = x.job_id := by
  unfold updFin
  by_cases h : (x.job_id == jobId) = true <;> simp [h]

theorem serviceUpdate_nofin_fst (db : List Job) (jobId : Nat)
    (status : JobStatus) (now : Nat) :
    (serviceUpdateJobStatus db jobId status false now).1 =
      if (getJobByJobId db jobId).isSome then db.map (updNoFin jobId status)
      else db := by
  cases h : getJobByJobId db jobId with
  | none => rw [congrArg Prod.fst (serviceUpdate_none status false now h)]; simp
  | some j0 => rw [congrArg Prod.fst (serviceUpdate_found_nofin status now h)]; simp

theorem serviceUpdate_fin_fst (db : List Job) (jobId : Nat)
    (status : JobStatus) (now : Nat) :
    (serviceUpdateJobStatus db jobId status true now).1 =
      if (getJobByJobId db jobId).isSome then db.map (updFin jobId status now)
      else db := by
  cases h : getJobByJobId db jobId with
  | none => rw [congrArg Prod.fst (serviceUpdate_none status true now h)]; simp
  | some j0 => rw [congrArg Prod.fst (serviceUpdate_found_fin status now h)]; simp

theorem updFin_comp (db : List Job) (jobId : Nat) (status : JobStatus)
    (t1 t2 : Nat) :
    (db.map (updFin jobId status t1)).map (updFin jobId status t2)
      = db.map (updFin jobId status t2) := by
  rw [List.map_map]
  apply congrArg (fun h => List.map h db)
  funext x
  unfold updFin
  by_cases h : (x.job_id == jobId) = true <;> simp [Function.comp, h]

/-- C9: update_status with finished_timestamp=False changes only the status
field of the targeted job: job_id, flow_id, type, user_id, asset_id,
asset_type, created_timestamp and any previously set finished_timestamp are
unchanged for every row, and rows with a different job_id keep their status
too. -/
theorem C9_update_status_frame (db : List Job) (jobId : Nat)
    (status : JobStatus) (now : Nat) :
    List.Forall₂
      (fun (j j' : Job) =>
        j'.job_id = j.job_id ∧ j'.flow_id = j.flow_id ∧ j'.type = j.type ∧
        j'.user_id = j.user_id ∧ j'.asset_id = j.asset_id ∧
        j'.asset_type = j.asset_type ∧
        j'.created_timestamp = j.created_timestamp ∧
        j'.finished_timestamp = j.finished_timestamp ∧
        j'.status = (if j.job_id = jobId then status else j.status))
      db (serviceUpdateJobStatus db jobId status false now).1 := by
  rw [serviceUpdate_nofin_fst]
  cases h : getJobByJobId db jobId with
  | none =>
      simp only [h, Option.isSome_none, Bool.false_eq_true, if_false]
      apply List.forall₂_same.mpr
      intro j hj
      have hne : ¬ (j.job_id == jobId) = true := List.find?_eq_none.mp h j hj
      have hne2 : ¬ j.job_id = jobId := by simpa using hne
      simp [hne2]
  | some j0 =>
      simp only [h, Option.isSome_some, if_true]
      rw [List.forall₂_map_right_iff]
      apply List.forall₂_same.mpr
      intro j _
      unfold updNoFin
      by_cases hj : j.job_id = jobId
      · simp [hj]
      · simp [hj]

/-- C4 counterexample: calling update_status(1, COMPLETED, finished=True)
twice, at clock ticks 0 and then 1, does NOT leave the same observable Job
state as after the first call: finished_timestamp is restamped from 0 to 1. -/
theorem C4_counterexample :
    (serviceUpdateJobStatus
        (serviceUpdateJobStatus [sampleJobInProgress] 1 .completed true 0).1
        1 .completed true 1).1
      ≠ (serviceUpdateJobStatus [sampleJobInProgress] 1 .completed true 0).1 ∧
    ((serviceUpdateJobStatus
        (serviceUpdateJobStatus [sampleJobInProgress] 1 .completed true 0).1
        1 .completed true 1).1.map Job.finished_timestamp = [some 1]) ∧
    ((serviceUpdateJobStatus [sampleJobInProgress] 1 .completed true 0).1.map
        Job.finished_timestamp = [some 0]) := by
  refine ⟨?_, ?_, ?_⟩ <;> decide

/-- C4 (amended): update_status(id, s, finished=True) is absorptive rather
than idempotent: a second call at clock t2 yields exactly the state a single
call at t2 would; consequently every field except finished_timestamp (in
particular status) agrees with the first call's result, and repeating the
call within the same clock tick is a no-op. -/
theorem C4_update_status_absorbs (db : List Job) (jobId : Nat)
    (status : JobStatus) (t1 t2 : Nat) :
    (serviceUpdateJobStatus (serviceUpdateJobStatus db jobId status true t1).1
        jobId status true t2).1
      = (serviceUpdateJobStatus db jobId status true t2).1 ∧
    List.Forall₂
      (fun (j j' : Job) =>
        j'.job_id = j.job_id ∧ j'.flow_id = j.flow_id ∧ j'.type = j.type ∧
        j'.user_id = j.user_id ∧ j'.asset_id = j.asset_id ∧
        j'.asset_type = j.asset_type ∧
        j'.created_timestamp = j.created_timestamp ∧ j'.status = j.status)
      (serviceUpdateJobStatus db jobId status true t1).1
      (serviceUpdateJobStatus (serviceUpdateJobStatus db jobId status true t1).1
        jobId status true t2).1 := by
  cases h : getJobByJobId db jobId with
  | none =>
      have e1 : (serviceUpdateJobStatus db jobId status true t1).1 = db := by
        rw [serviceUpdate_fin_fst]; simp [h]
      rw [e1]
      exact ⟨rfl, by
        rw [serviceUpdate_fin_fst]
        simp only [h, Option.isSome_none, Bool.false_eq_true, if_false]
        exact List.forall₂_same.mpr (fun j _ => by simp)⟩
  | some j0 =>
      have e1 : (serviceUpdateJobStatus db jobId status true t1).1
          = db.map (updFin jobId status t1) := by
        rw [serviceUpdate_fin_fst]; simp [h]
      have e2 : (serviceUpdateJobStatus (serviceUpdateJobStatus db jobId
          status true t1).1 jobId status true t2).1
          = db.map (updFin jobId status t2) := by
        rw [serviceUpdate_fin_fst, e1]
        rw [getJobByJobId_map db _ jobId (updFin_job_id jobId status t1), h]
        simp only [Option.map_some', Option.isSome_some, if_true]
        exact updFin_comp db jobId status t1 t2
      refine ⟨?_, ?_⟩
      · rw [e2, serviceUpdate_fin_fst]
        simp [h]
      · rw [e2, e1]
        rw [List.forall₂_map_right_iff, List.forall₂_map_left_iff]
        apply List.forall₂_same.mpr
        intro j _
        unfold updFin
        by_cases hj : (j.job_id == jobId) = true
        · simp [hj]
        · simp [hj]

/-- C2 counterexample: the cancellation request itself breaks the
finished-timestamp invariant. Starting from a freshly created (QUEUED) job
for asset 7, the cancel endpoint sets status CANCELLED without stamping
finished_timestamp, leaving a terminal job with finished_timestamp = None. -/
theorem C2_counterexample :
    cancelIngestion (createJob [] 1 2 JobType.ingestion (some 7) (some "kb") 3).1 7 9
      = Except.ok
          [{ job_id := 1, flow_id := 2, status := JobStatus.cancelled,
             created_timestamp := 3, finished_timestamp := none,
             type := JobType.ingestion, user_id := none, asset_id := some 7,
             asset_type := some "kb" }] ∧
    ¬ jobsInvariant
        [{ job_id := 1, flow_id := 2, status := JobStatus.cancelled,
           created_timestamp := 3, finished_timestamp := none,
           type := JobType.ingestion, user_id := none, asset_id := some 7,
           asset_type := some "kb" }] := by
  constructor
  · rfl
  · decide

theorem terminalStatus_isTerminal (o : ExecOutcome) :
    (ExecOutcome.terminalStatus o).isTerminal = true := by
  cases o <;> rfl

theorem applySafeOp_invariant (db : List Job) (op : SafeOp)
    (h : jobsInvariant db) : jobsInvariant (applySafeOp db op) := by
  cases op with
  | create jobId flowId jobType assetId assetType now =>
      intro j hj
      simp only [applySafeOp, createJob, List.mem_append, List.mem_singleton] at hj
      cases hj with
      | inl hmem => exact h j hmem
      | inr hnew => rw [hnew]; simp [JobStatus.isTerminal]
  | run jobId outcome nowStart nowEnd =>
      simp only [applySafeOp, executeWithStatus]
      cases hfind : getJobByJobId db jobId with
      | none =>
          rw [serviceUpdate_nofin_fst]
          simp only [hfind, Option.isSome_none, Bool.false_eq_true, if_false]
          rw [serviceUpdate_fin_fst]
          simp only [hfind, Option.isSome_none, Bool.false_eq_true, if_false]
          exact h
      | some j0 =>
          rw [serviceUpdate_nofin_fst]
          simp only [hfind, Option.isSome_some, if_true]
          rw [serviceUpdate_fin_fst]
          rw [getJobByJobId_map db _ jobId
            (updNoFin_job_id jobId JobStatus.in_progress), hfind]
          simp only [Option.map_some', Option.isSome_some, if_true]
          rw [List.map_map]
          intro j hj
          rcases List.mem_map.mp hj with ⟨x, hxmem, hx⟩
          rw [← hx]
          by_cases hid : (x.job_id == jobId) = true
          · simp [Function.comp, updFin, updNoFin, hid, terminalStatus_isTerminal]
          · simp only [Function.comp_apply, updFin, updNoFin, hid,
              Bool.false_eq_true, if_false]
            exact h x hxmem

/-- C2 (amended): the finished-timestamp-iff-terminal invariant is preserved
by every sequence of create_job operations and complete execute_with_status
lifecycles; it is NOT preserved by a bare update_status call with a
mismatched set_finished flag, nor by the cancellation request, which sets
CANCELLED without stamping finished_timestamp. -/
theorem C2_finished_iff_terminal (ops : List SafeOp) (db : List Job)
    (h : jobsInvariant db) : jobsInvariant (applySafeOps db ops) := by
  induction ops generalizing db with
  | nil => exact h
  | cons op rest ih =>
      exact ih (applySafeOp db op) (applySafeOp_invariant db op h)

/-- C2 witness: the invariant holds concretely after create + successful
lifecycle. -/
theorem C2_finished_iff_terminal_witness :
    jobsInvariant (applySafeOps []
      [SafeOp.create 1 2 JobType.ingestion (some 7) (some "kb") 0,
       SafeOp.run 1 ExecOutcome.success 1 5]) :=
  C2_finished_iff_terminal
    [SafeOp.create 1 2 JobType.ingestion (some 7) (some "kb") 0,
     SafeOp.run 1 ExecOutcome.success 1 5] [] (by decide)

/-- C3 counterexample: terminal states are not sticky in this subsystem. The
status-update primitive (the one execute_with_status and the cancellation
endpoint build on) happily moves a COMPLETED job back to QUEUED. -/
theorem C3_counterexample :
    sampleJobCompleted.status.isTerminal = true ∧
    (serviceUpdateJobStatus [sampleJobCompleted] 1 JobStatus.queued false 9).1.map
        Job.status = [JobStatus.queued] := by
  constructor <;> decide

theorem terminalStrings_eq_isTerminal (s : JobStatus) :
    terminalStatusStrings.contains s.value = s.isTerminal := by
  cases s <;> rfl

/-- C3 (amended): the cancellation endpoint rejects a cancellation request
for an asset whose latest job is terminal: it returns a 400 error (not 409
Conflict) whose detail message contains the job's current status string, and
performs no update; terminal-state immutability holds only at this endpoint,
not for the underlying update_status primitive (see the counterexample). -/
theorem C3_cancel_terminal_rejected (db : List Job) (assetId now : Nat)
    (job : Job)
    (hlookup : ((getLatestJobsByAssetIds ⟨db, 0⟩ [assetId]).1.lookup assetId)
      = some job)
    (hterm : job.status.isTerminal = true) :
    cancelIngestion db assetId now
      = Except.error ⟨400, "Cannot cancel job with status " ++ job.status.value⟩ ∧
    ∃ pre, ("Cannot cancel job with status " ++ job.status.value)
      = pre ++ job.status.value := by
  constructor
  · unfold cancelIngestion
    rw [hlookup]
    have hc : terminalStatusStrings.contains job.status.value = true := by
      rw [terminalStrings_eq_isTerminal]; exact hterm
    simp [hc]
    exact List.mem_of_elem_eq_true hc
  · exact ⟨"Cannot cancel job with status ", rfl⟩

/-- C3 witness: cancelling asset 7 whose latest job is completed yields the
400 error carrying the status string. -/
theorem C3_cancel_terminal_rejected_witness :
    cancelIngestion [sampleJobCompleted] 7 9
      = Except.error ⟨400, "Cannot cancel job with status "
          ++ sampleJobCompleted.status.value⟩ ∧
    ∃ pre, ("Cannot cancel job with status " ++ sampleJobCompleted.status.value)
      = pre ++ sampleJobCompleted.status.value :=
  C3_cancel_terminal_rejected [sampleJobCompleted] 7 9 sampleJobCompleted
    (by decide) (by decide)

theorem find_first_created_ge (p : Job → Bool) (S : List Job) (x : Job)
    (hs : List.Pairwise createdDesc S) (hf : S.find? p = some x) :
    ∀ j ∈ S, p j = true → j.created_timestamp ≤ x.created_timestamp := by
  induction S with
  | nil => simp at hf
  | cons y t ih =>
      rcases List.pairwise_cons.mp hs with ⟨hy, ht⟩
      by_cases hp : p y = true
      · rw [List.find?_cons_of_pos t hp] at hf
        injection hf with hxy
        intro j hj hpj
        rcases List.mem_cons.mp hj with hjy | hjt
        · rw [hjy, ← hxy]
        · rw [← hxy]; exact hy j hjt
      · rw [List.find?_cons_of_neg t (by simpa using hp)] at hf
        intro j hj hpj
        rcases List.mem_cons.mp hj with hjy | hjt
        · rw [hjy] at hpj; exact absurd hpj hp
        · exact ih ht hf j hjt hpj

theorem lookup_append_single {α : Type} {β : Type} [BEq α] [LawfulBEq α]
    [DecidableEq α] (acc : List (α × β)) (a b : α) (x : β) :
    (acc ++ [(b, x)]).lookup a
      = oor (acc.lookup a) (if a = b then some x else none) := by
  induction acc with
  | nil =>
      simp only [List.nil_append, List.lookup]
      by_cases h : a = b
      · have heq : (a == b) = true := by simpa using h
        simp [heq, h, oor]
      · have heq : (a == b) = false := by simpa using h
        simp [heq, h, oor]
  | cons p t ih =>
      rcases p with ⟨k, v⟩
      by_cases h : a = k
      · have hek : (a == k) = true := by simpa using h
        simp [List.lookup, hek, oor]
      · have hek : (a == k) = false := by simpa using h
        simp only [List.cons_append, List.lookup, hek]
        exact ih

theorem latestFold_lookup (S : List Job) (acc : List (Nat × Job)) (a : Nat) :
    (latestFold S acc).lookup a
      = oor (acc.lookup a) (S.find? (fun j => j.asset_id == some a)) := by
  induction S generalizing acc with
  | nil =>
      simp only [latestFold, List.find?]
      cases h : acc.lookup a <;> simp [oor]
  | cons j t ih =>
      cases hja : j.asset_id with
      | none =>
          simp only [latestFold, hja]
          have hpj : ((none : Option Nat) == some a) = false := by rfl
          rw [ih acc]
          congr 1
          rw [List.find?_cons_of_neg]
          rw [hja]
          simp
      | some b =>
          simp only [latestFold, hja]
          by_cases hsome : (acc.lookup b).isSome = true
          · simp only [hsome, if_true]
            rw [ih acc]
            by_cases hab : a = b
            · rcases Option.isSome_iff_exists.mp hsome with ⟨v, hv⟩
              rw [hab, hv]
              simp [oor]
            · congr 1
              rw [List.find?_cons_of_neg]
              rw [hja]
              simpa using fun h => hab h.symm
          · have hfalse : (acc.lookup b).isSome = false := by
              cases hl : acc.lookup b with
              | none => rfl
              | some v => rw [hl] at hsome; simp at hsome
            simp only [hfalse, Bool.false_eq_true, if_false]
            rw [ih (acc ++ [(b, j)])]
            rw [lookup_append_single]
            by_cases hab : a = b
            · have hnone : acc.lookup a = none := by
                rw [hab]
                cases hl : acc.lookup b with
                | none => rfl
                | some v => rw [hl] at hsome; simp at hsome
              rw [hnone]
              simp only [hab, if_pos rfl, oor]
              have hpj : (j.asset_id == some b) = true := by rw [hja]; simp
              rw [List.find?_cons_of_pos t hpj]
              simp [oor]
            · simp only [if_neg hab]
              have hoor : oor (acc.lookup a) none = acc.lookup a := by
                cases hl : acc.lookup a <;> simp [oor]
              rw [hoor]
              congr 1
              rw [List.find?_cons_of_neg]
              rw [hja]
              simpa using fun h => hab h.symm

/-- C7: get_latest_jobs_by_asset_ids issues exactly one SELECT for a
non-empty id list (and none for an empty one); asset ids none of whose jobs
exist are absent from the map; and an asset id in the list whose strictly
latest job (by created_timestamp) is jmax maps to exactly jmax. -/
theorem C7_latest_jobs (s0 : DBSession) (assetIds : List Nat) :
    (assetIds ≠ [] →
      (getLatestJobsByAssetIds s0 assetIds).2.queries = s0.queries + 1) ∧
    (assetIds = [] →
      (getLatestJobsByAssetIds s0 assetIds).2.queries = s0.queries) ∧
    (∀ a ∈ assetIds, (∀ j ∈ s0.jobs, j.asset_id ≠ some a) →
      ((getLatestJobsByAssetIds s0 assetIds).1.lookup a) = none) ∧
    (∀ a ∈ assetIds, ∀ jmax ∈ s0.jobs, jmax.asset_id = some a →
      (∀ j ∈ s0.jobs, j.asset_id = some a → j ≠ jmax →
        j.created_timestamp < jmax.created_timestamp) →
      ((getLatestJobsByAssetIds s0 assetIds).1.lookup a) = some jmax) := by
  by_cases hempty : assetIds = []
  · subst hempty
    refine ⟨fun h => absurd rfl h, fun _ => ?_, fun a ha => absurd ha (by simp),
      fun a ha => absurd ha (by simp)⟩
    simp [getLatestJobsByAssetIds]
  · have hne : assetIds.isEmpty = false := by
      cases assetIds with
      | nil => exact absurd rfl hempty
      | cons x t => rfl
    have hunfold : getLatestJobsByAssetIds s0 assetIds
        = ((latestFold ((s0.jobs.filter (fun j => match j.asset_id with
              | some a => assetIds.contains a
              | none => false)).insertionSort createdDesc) []),
           { s0 with queries := s0.queries + 1 }) := by
      unfold getLatestJobsByAssetIds execSelect
      rw [hne]
      simp
    refine ⟨fun _ => by rw [hunfold], fun h => absurd h hempty, ?_, ?_⟩
    · intro a _ hnojob
      rw [hunfold]
      simp only
      rw [latestFold_lookup]
      have : (List.find? (fun j => j.asset_id == some a)
          ((s0.jobs.filter (fun j => match j.asset_id with
            | some a => assetIds.contains a
            | none => false)).insertionSort createdDesc)) = none := by
        rw [List.find?_eq_none]
        intro x hx
        have hxmem : x ∈ s0.jobs :=
          List.mem_filter.mp (((List.perm_insertionSort createdDesc _).mem_iff).mp hx) |>.1
        intro hcontra
        exact hnojob x hxmem (by simpa using hcontra)
      rw [this]
      simp [List.lookup, oor]
    · intro a ha jmax hjmaxmem hjmaxasset hstrict
      rw [hunfold]
      simp only
      rw [latestFold_lookup]
      set S := ((s0.jobs.filter (fun j => match j.asset_id with
            | some a => assetIds.contains a
            | none => false)).insertionSort createdDesc) with hS
      have hjmaxS : jmax ∈ S := by
        rw [hS]
        rw [(List.perm_insertionSort createdDesc _).mem_iff]
        apply List.mem_filter.mpr
        refine ⟨hjmaxmem, ?_⟩
        rw [hjmaxasset]
        simpa using List.elem_iff.mpr ha
      have hp : (fun j => j.asset_id == some a) jmax = true := by
        simp [hjmaxasset]
      have hsomefind : (S.find? (fun j => j.asset_id == some a)).isSome := by
        rw [List.find?_isSome]
        exact ⟨jmax, hjmaxS, hp⟩
      rcases Option.isSome_iff_exists.mp hsomefind with ⟨x, hx⟩
      have hxS : x ∈ S := List.mem_of_find?_eq_some hx
      have hxasset : x.asset_id = some a := by
        have := List.find?_some hx
        simpa using this
      have hxjobs : x ∈ s0.jobs := by
        rw [hS] at hxS
        exact (List.mem_filter.mp
          (((List.perm_insertionSort createdDesc _).mem_iff).mp hxS)).1
      have hge : jmax.created_timestamp ≤ x.created_timestamp := by
        have hsorted : List.Pairwise createdDesc S := by
          rw [hS]
          exact List.sorted_insertionSort createdDesc _
        exact find_first_created_ge _ S x hsorted hx jmax hjmaxS hp
      have hxeq : x = jmax := by
        by_contra hne2
        exact absurd hge (by
          simpa using Nat.lt_of_lt_of_le
            (hstrict x hxjobs hxasset hne2) (Nat.le_refl _) |>.not_le)
      rw [hx, hxeq]
      simp [List.lookup, oor]

/-- C7 witness: two jobs for asset 7 at times 3 and 4; the map returns the
later one, and exactly one query runs. -/
theorem C7_latest_jobs_witness :
    ((getLatestJobsByAssetIds ⟨[sampleJobInProgress,
        sampleJobCompleted2], 0⟩ [7]).1.lookup 7) = some sampleJobCompleted2 ∧
    (getLatestJobsByAssetIds ⟨[sampleJobInProgress,
        sampleJobCompleted2], 0⟩ [7]).2.queries = 1 :=
  ⟨(C7_latest_jobs ⟨[sampleJobInProgress, sampleJobCompleted2], 0⟩ [7]).2.2.2
      7 (by decide) sampleJobCompleted2 (by decide) (by decide)
      (fun j hj hja hne => by
        rcases List.mem_cons.mp hj with h1 | h2
        · rw [h1]; decide
        · rcases List.mem_cons.mp h2 with h3 | h4
          · exact absurd h3 hne
          · simp at h4),
   (C7_latest_jobs ⟨[sampleJobInProgress, sampleJobCompleted2], 0⟩ [7]).1
      (by decide)⟩

theorem lookup_overwrite_self (d : MetaDoc) (k : String) (v : JVal)
    (h : (d.lookup k).isSome = true) :
    (d.map (fun p => if p.1 = k then (k, v) else p)).lookup k = some v := by
  induction d with
  | nil => simp at h
  | cons p t ih =>
      rcases p with ⟨k0, v0⟩
      by_cases hk : k0 = k
      · subst hk
        rw [List.map_cons]
        have hhead : (if ((k0, v0) : String × JVal).1 = k0 then (k0, v)
            else (k0, v0)) = (k0, v) := by simp
        rw [hhead, List.lookup_cons_self]
      · have hek : (k == k0) = false := by
          simpa using fun he => hk he.symm
        simp only [List.lookup_cons, hek] at h
        rw [List.map_cons]
        have hhead : (if ((k0, v0) : String × JVal).1 = k then (k, v)
            else (k0, v0)) = (k0, v0) := by simp [hk]
        rw [hhead, List.lookup_cons]
        simp only [hek]
        exact ih h

theorem lookup_overwrite_other (d : MetaDoc) (k k' : String) (v : JVal)
    (h : k' ≠ k) :
    (d.map (fun p => if p.1 = k then (k, v) else p)).lookup k' = d.lookup k' := by
  induction d with
  | nil => rfl
  | cons p t ih =>
      rcases p with ⟨k0, v0⟩
      by_cases hk : k0 = k
      · subst hk
        have hek : (k' == k0) = false := by simpa using h
        rw [List.map_cons]
        have hhead : (if ((k0, v0) : String × JVal).1 = k0 then (k0, v)
            else (k0, v0)) = (k0, v) := by simp
        rw [hhead, List.lookup_cons, List.lookup_cons]
        simp only [hek]
        exact ih
      · rw [List.map_cons]
        have hhead : (if ((k0, v0) : String × JVal).1 = k then (k, v)
            else (k0, v0)) = (k0, v0) := by simp [hk]
        rw [hhead, List.lookup_cons, List.lookup_cons]
        cases hc : (k' == k0) with
        | true => simp only [hc]
        | false => simp only [hc]; exact ih

theorem docGet_docInsert_self (d : MetaDoc) (k : String) (v : JVal) :
    docGet (docInsert d k v) k = some v := by
  unfold docGet docInsert
  by_cases h : (d.lookup k).isSome = true
  · simp only [h, if_true]
    exact lookup_overwrite_self d k v h
  · have hf : (d.lookup k).isSome = false := by
      cases hl : d.lookup k with
      | none => rfl
      | some w => rw [hl] at h; simp at h
    have hnone : d.lookup k = none := by
      cases hl : d.lookup k with
      | none => rfl
      | some w => rw [hl] at hf; simp at hf
    simp only [hf, Bool.false_eq_true, if_false]
    rw [lookup_append_single, hnone]
    simp [oor]

theorem docGet_docInsert_other (d : MetaDoc) (k k' : String) (v : JVal)
    (h : k' ≠ k) :
    docGet (docInsert d k v) k' = docGet d k' := by
  unfold docGet docInsert
  by_cases hs : (d.lookup k).isSome = true
  · simp only [hs, if_true]
    exact lookup_overwrite_other d k k' v h
  · have hf : (d.lookup k).isSome = false := by
      cases hl : d.lookup k with
      | none => rfl
      | some w => rw [hl] at hs; simp at hs
    simp only [hf, Bool.false_eq_true, if_false]
    rw [lookup_append_single]
    simp only [if_neg h]
    cases hl : d.lookup k' <;> simp [oor]

theorem fillDefaults_get (defs : MetaDoc) (d : MetaDoc) (k : String)
    (hk : k ≠ "id") :
    docGet (fillDefaults d defs) k = oor (docGet d k) (defs.lookup k) := by
  induction defs generalizing d with
  | nil =>
      simp only [fillDefaults, List.lookup]
      cases h : docGet d k <;> simp [oor]
  | cons p rest ih =>
      rcases p with ⟨k0, v0⟩
      simp only [fillDefaults]
      by_cases hk0 : k0 = k
      · subst hk0
        have hid : (k0 == "id") = false := by simpa using hk
        simp only [hid, Bool.false_and, Bool.or_false]
        cases hdg : docGet d k0 with
        | none =>
            simp only [Option.isNone_none, Bool.true_or, if_true]
            rw [ih]
            rw [docGet_docInsert_self]
            have hself : (k0 == k0) = true := by simp
            simp [oor, hdg, List.lookup, hself]
        | some w =>
            simp only [Option.isNone_some, Bool.false_or, Bool.false_eq_true,
              if_false]
            rw [ih]
            have hself : (k0 == k0) = true := by simp
            simp [oor, hdg, List.lookup, hself]
      · have hne : (k == k0) = false := by
          simpa using fun he => hk0 he.symm
        have hstep : docGet
            (if (docGet d k0).isNone || (k0 == "id" && (docGet d k0).all jvalFalsy)
             then docInsert d k0 v0 else d) k = docGet d k := by
          by_cases hc : ((docGet d k0).isNone
              || (k0 == "id" && (docGet d k0).all jvalFalsy)) = true
          · simp only [hc, if_true]
            exact docGet_docInsert_other d k0 k v0 (fun he => hk0 he.symm)
          · have hcf : ((docGet d k0).isNone
                || (k0 == "id" && (docGet d k0).all jvalFalsy)) = false := by
              cases hb : ((docGet d k0).isNone
                || (k0 == "id" && (docGet d k0).all jvalFalsy)) with
              | true => exact absurd hb hc
              | false => rfl
            simp only [hcf, Bool.false_eq_true, if_false]
        rw [ih, hstep]
        simp only [List.lookup, hne]

/-- C5 counterexample: a FULL read (fast=False) of a complete, sentinel-free
document does NOT recompute size and does NOT write: with an on-disk size
field of 7 and an actual directory size of 99, the returned document still
says 7 and wrote=false. -/
theorem C5_counterexample :
    getMetadata false (some (some sampleFullMetaDoc)) 99 "P" "M" "fresh"
      = ⟨sampleFullMetaDoc, some (some sampleFullMetaDoc), false⟩ ∧
    docGet sampleFullMetaDoc "size" = some (.num 7) := by
  constructor <;> decide

theorem getMetadata_backfill (d : MetaDoc) (dirSize : Nat)
    (dp dm freshId : String)
    (hcond : (! hasAllRequiredKeys d freshId || metaHasUnknowns d) = true) :
    getMetadata false (some (some d)) dirSize dp dm freshId
      = ⟨backfillStep4 d dirSize dp dm freshId,
         some (some (backfillStep4 d dirSize dp dm freshId)), true⟩ := by
  unfold getMetadata
  simp only [Option.isSome_some, Bool.not_true, Bool.false_or, Bool.not_false,
    Bool.true_and, Bool.false_and, Bool.false_eq_true, if_false]
  rw [if_pos hcond]

theorem backfillStep2_size (d : MetaDoc) (dirSize : Nat) (freshId : String) :
    docGet (backfillStep2 d dirSize freshId) "size" = some (.num dirSize) :=
  docGet_docInsert_self _ _ _

theorem backfillStep3_size (d : MetaDoc) (dirSize : Nat)
    (dp freshId : String) :
    docGet (backfillStep3 d dirSize dp freshId) "size"
      = some (.num dirSize) := by
  unfold backfillStep3
  by_cases hc : (docGet (backfillStep2 d dirSize freshId) "embedding_provider"
      == some (.str "Unknown")) = true
  · simp only [hc, if_true]
    rw [docGet_docInsert_other _ _ _ _ (by decide)]
    exact backfillStep2_size d dirSize freshId
  · simp only [hc, Bool.false_eq_true, if_false]
    exact backfillStep2_size d dirSize freshId

theorem backfillStep4_size (d : MetaDoc) (dirSize : Nat)
    (dp dm freshId : String) :
    docGet (backfillStep4 d dirSize dp dm freshId) "size"
      = some (.num dirSize) := by
  unfold backfillStep4
  by_cases hc : (docGet (backfillStep3 d dirSize dp freshId) "embedding_model"
      == some (.str "Unknown")) = true
  · simp only [hc, if_true]
    rw [docGet_docInsert_other _ _ _ _ (by decide)]
    exact backfillStep3_size d dirSize dp freshId
  · simp only [hc, Bool.false_eq_true, if_false]
    exact backfillStep3_size d dirSize dp freshId

theorem backfillStep1_provider (d : MetaDoc) (freshId : String)
    (hp : docGet d "embedding_provider" = some (.str "Unknown") ∨
      docGet d "embedding_provider" = none) :
    docGet (backfillStep1 d freshId) "embedding_provider"
      = some (.str "Unknown") := by
  unfold backfillStep1
  rw [fillDefaults_get _ _ _ (by decide)]
  have hlk : (metadataDefaults freshId).lookup "embedding_provider"
      = some (.str "Unknown") := rfl
  rw [hlk]
  cases hp with
  | inl h => rw [h]; rfl
  | inr h => rw [h]; rfl

theorem backfillStep1_model (d : MetaDoc) (freshId : String)
    (hm : docGet d "embedding_model" = some (.str "Unknown") ∨
      docGet d "embedding_model" = none) :
    docGet (backfillStep1 d freshId) "embedding_model"
      = some (.str "Unknown") := by
  unfold backfillStep1
  rw [fillDefaults_get _ _ _ (by decide)]
  have hlk : (metadataDefaults freshId).lookup "embedding_model"
      = some (.str "Unknown") := rfl
  rw [hlk]
  cases hm with
  | inl h => rw [h]; rfl
  | inr h => rw [h]; rfl

theorem backfillStep4_provider (d : MetaDoc) (dirSize : Nat)
    (dp dm freshId : String)
    (hp : docGet d "embedding_provider" = some (.str "Unknown") ∨
      docGet d "embedding_provider" = none) :
    docGet (backfillStep4 d dirSize dp dm freshId) "embedding_provider"
      = some (.str dp) := by
  have h2 : docGet (backfillStep2 d dirSize freshId) "embedding_provider"
      = some (.str "Unknown") := by
    unfold backfillStep2
    rw [docGet_docInsert_other _ _ _ _ (by decide)]
    exact backfillStep1_provider d freshId hp
  have h3 : docGet (backfillStep3 d dirSize dp freshId) "embedding_provider"
      = some (.str dp) := by
    unfold backfillStep3
    rw [h2]
    simp only [beq_self_eq_true, if_true]
    exact docGet_docInsert_self _ _ _
  unfold backfillStep4
  by_cases hc : (docGet (backfillStep3 d dirSize dp freshId) "embedding_model"
      == some (.str "Unknown")) = true
  · simp only [hc, if_true]
    rw [docGet_docInsert_other _ _ _ _ (by decide)]
    exact h3
  · simp only [hc, Bool.false_eq_true, if_false]
    exact h3

theorem backfillStep4_model (d : MetaDoc) (dirSize : Nat)
    (dp dm freshId : String)
    (hm : docGet d "embedding_model" = some (.str "Unknown") ∨
      docGet d "embedding_model" = none) :
    docGet (backfillStep4 d dirSize dp dm freshId) "embedding_model"
      = some (.str dm) := by
  have h2 : docGet (backfillStep2 d dirSize freshId) "embedding_model"
      = some (.str "Unknown") := by
    unfold backfillStep2
    rw [docGet_docInsert_other _ _ _ _ (by decide)]
    exact backfillStep1_model d freshId hm
  have h3 : docGet (backfillStep3 d dirSize dp freshId) "embedding_model"
      = some (.str "Unknown") := by
    unfold backfillStep3
    by_cases hc : (docGet (backfillStep2 d dirSize freshId) "embedding_provider"
        == some (.str "Unknown")) = true
    · simp only [hc, if_true]
      rw [docGet_docInsert_other _ _ _ _ (by decide)]
      exact h2
    · simp only [hc, Bool.false_eq_true, if_false]
      exact h2
  unfold backfillStep4
  rw [h3]
  simp only [beq_self_eq_true, if_true]
  exact docGet_docInsert_self _ _ _

/-- C5 (amended): a FAST read of a document holding all required keys
returns it unmodified with no disk write; a FULL read does the same when the
document is additionally free of Unknown sentinels; a FULL read recomputes
size, replaces an Unknown-or-missing provider/model with the detected value,
and persists, exactly when a required key is missing or a sentinel is
present. -/
theorem C5_metadata_modes (d : MetaDoc) (dirSize : Nat)
    (dp dm freshId : String) :
    (hasAllRequiredKeys d freshId = true →
      getMetadata true (some (some d)) dirSize dp dm freshId
        = ⟨d, some (some d), false⟩) ∧
    (hasAllRequiredKeys d freshId = true → metaHasUnknowns d = false →
      getMetadata false (some (some d)) dirSize dp dm freshId
        = ⟨d, some (some d), false⟩) ∧
    ((hasAllRequiredKeys d freshId = false ∨ metaHasUnknowns d = true) →
      (getMetadata false (some (some d)) dirSize dp dm freshId).wrote = true ∧
      (getMetadata false (some (some d)) dirSize dp dm freshId).disk
        = some (some (getMetadata false (some (some d)) dirSize dp dm
            freshId).doc) ∧
      docGet (getMetadata false (some (some d)) dirSize dp dm freshId).doc
          "size" = some (.num dirSize) ∧
      ((docGet d "embedding_provider" = some (.str "Unknown") ∨
        docGet d "embedding_provider" = none) →
        docGet (getMetadata false (some (some d)) dirSize dp dm freshId).doc
          "embedding_provider" = some (.str dp)) ∧
      ((docGet d "embedding_model" = some (.str "Unknown") ∨
        docGet d "embedding_model" = none) →
        docGet (getMetadata false (some (some d)) dirSize dp dm freshId).doc
          "embedding_model" = some (.str dm))) := by
  refine ⟨?_, ?_, ?_⟩
  · intro h
    unfold getMetadata
    simp [h]
  · intro h1 h2
    unfold getMetadata
    simp [h1, h2]
  · intro h
    have hcond : (! hasAllRequiredKeys d freshId || metaHasUnknowns d)
        = true := by
      cases h with
      | inl h1 => rw [h1]; rfl
      | inr h2 => rw [h2]; simp
    rw [getMetadata_backfill d dirSize dp dm freshId hcond]
    dsimp only
    refine ⟨rfl, rfl, backfillStep4_size d dirSize dp dm freshId, ?_, ?_⟩
    · exact fun hp => backfillStep4_provider d dirSize dp dm freshId hp
    · exact fun hm => backfillStep4_model d dirSize dp dm freshId hm

/-- C5 witness: starting from a document missing embedding_model (and all
other keys), the FULL read writes a document whose size is the directory
size and whose model is the detected value; the FAST read of the complete
document is then a pure read. -/
theorem C5_metadata_modes_witness :
    (getMetadata true (some (some sampleFullMetaDoc)) 99 "P" "M" "fresh"
      = ⟨sampleFullMetaDoc, some (some sampleFullMetaDoc), false⟩) ∧
    ((getMetadata false (some (some [("id", JVal.str "abc")])) 99 "P" "M"
        "fresh").wrote = true ∧
     docGet (getMetadata false (some (some [("id", JVal.str "abc")])) 99 "P"
        "M" "fresh").doc "size" = some (.num 99) ∧
     docGet (getMetadata false (some (some [("id", JVal.str "abc")])) 99 "P"
        "M" "fresh").doc "embedding_model" = some (.str "M")) :=
  ⟨(C5_metadata_modes sampleFullMetaDoc 99 "P" "M" "fresh").1 (by decide),
   ((C5_metadata_modes [("id", JVal.str "abc")] 99 "P" "M" "fresh").2.2
      (Or.inl (by decide))).1,
   ((C5_metadata_modes [("id", JVal.str "abc")] 99 "P" "M" "fresh").2.2
      (Or.inl (by decide))).2.2.1,
   ((C5_metadata_modes [("id", JVal.str "abc")] 99 "P" "M" "fresh").2.2
      (Or.inl (by decide))).2.2.2.2 (Or.inr (by decide))⟩

theorem slice_length {α : Type} (l : List α) (o k : Nat) :
    ((l.drop o).take k).length = min k (l.length - o) := by
  simp [List.length_take, List.length_drop]

theorem slice_getElem {α : Type} (l : List α) (o k i : Nat) (h : i < k) :
    ((l.drop o).take k)[i]? = l[o + i]? := by
  rw [List.getElem?_take]
  simp [h, List.getElem?_drop]

theorem ceil_div_bounds (t l : Nat) (hl : 0 < l) (ht : 0 < t) :
    t ≤ l * ((t + l - 1) / l) ∧ l * ((t + l - 1) / l) - l < t := by
  have key := Nat.div_add_mod (t + l - 1) l
  have hmlt : (t + l - 1) % l < l := Nat.mod_lt _ hl
  generalize hq : (t + l - 1) / l = q at *
  generalize hr : (t + l - 1) % l = r at *
  generalize hX : l * q = X at *
  omega

theorem getKBChunks_noSearch (store : List ChunkRecord) (page limit : Nat)
    (search : String) (h : strStrip search = "") :
    getKnowledgeBaseChunks true store page limit search
      = ⟨((store.drop ((page - 1) * limit)).take limit).map toChunkInfo,
         store.length, page, limit,
         if store.length > 0 then (store.length + limit - 1) / limit
         else 0⟩ := by
  unfold getKnowledgeBaseChunks
  simp [h]

theorem getKBChunks_search (store : List ChunkRecord) (page limit : Nat)
    (search : String) (h : strStrip search ≠ "") :
    getKnowledgeBaseChunks true store page limit search
      = ⟨(((store.filter (fun c => strContains c.document (strStrip search))).drop
            ((page - 1) * limit)).take limit).map toChunkInfo,
         (store.filter (fun c => strContains c.document (strStrip search))).length,
         page, limit,
         if (store.filter (fun c => strContains c.document (strStrip search))).length
            > 0 then
           ((store.filter (fun c => strContains c.document (strStrip search))).length
             + limit - 1) / limit
         else 0⟩ := by
  unfold getKnowledgeBaseChunks
  simp [h]

/-- C8: pagination of stored chunks. Without search, the page holds exactly
the records at offsets (page-1)*limit .. page*limit-1 of the store and total
is the store count; with search, the page is the in-memory slice of the full
substring-matching set and total is that set's size; the requested page and
limit are echoed; and total_pages is 0 for an empty total and otherwise the
ceiling of total/limit (characterized by limit*(total_pages) - limit < total
≤ limit*total_pages). -/
theorem C8_chunks_pagination (store : List ChunkRecord) (page limit : Nat)
    (search : String) (hlimit : 1 ≤ limit) :
    (strStrip search = "" →
      (getKnowledgeBaseChunks true store page limit search).total
          = store.length ∧
      (getKnowledgeBaseChunks true store page limit search).chunks.length
          = min limit (store.length - (page - 1) * limit) ∧
      (∀ i, i < limit →
        (getKnowledgeBaseChunks true store page limit search).chunks[i]?
          = (store[(page - 1) * limit + i]?).map toChunkInfo)) ∧
    (strStrip search ≠ "" →
      (getKnowledgeBaseChunks true store page limit search).total
          = (store.filter (fun c => strContains c.document (strStrip search))).length ∧
      (getKnowledgeBaseChunks true store page limit search).chunks.length
          = min limit
              ((store.filter (fun c => strContains c.document
                (strStrip search))).length - (page - 1) * limit) ∧
      (∀ i, i < limit →
        (getKnowledgeBaseChunks true store page limit search).chunks[i]?
          = ((store.filter (fun c => strContains c.document
              (strStrip search)))[(page - 1) * limit + i]?).map toChunkInfo)) ∧
    (getKnowledgeBaseChunks true store page limit search).page = page ∧
    (getKnowledgeBaseChunks true store page limit search).limit = limit ∧
    ((getKnowledgeBaseChunks true store page limit search).total = 0 →
      (getKnowledgeBaseChunks true store page limit search).total_pages = 0) ∧
    (0 < (getKnowledgeBaseChunks true store page limit search).total →
      (getKnowledgeBaseChunks true store page limit search).total
        ≤ limit * (getKnowledgeBaseChunks true store page limit
            search).total_pages ∧
      limit * (getKnowledgeBaseChunks true store page limit
          search).total_pages - limit
        < (getKnowledgeBaseChunks true store page limit search).total) := by
  by_cases h : strStrip search = ""
  · rw [getKBChunks_noSearch store page limit search h]
    refine ⟨fun _ => ⟨rfl, ?_, ?_⟩, fun hc => absurd h hc, rfl, rfl, ?_, ?_⟩
    · dsimp only
      rw [List.length_map]
      exact slice_length store ((page - 1) * limit) limit
    · intro i hi
      dsimp only
      rw [List.getElem?_map, slice_getElem store ((page - 1) * limit) limit i hi]
    · intro ht
      dsimp only at ht ⊢
      simp [ht]
    · intro ht
      dsimp only at ht ⊢
      rw [if_pos ht]
      exact ceil_div_bounds store.length limit hlimit ht
  · rw [getKBChunks_search store page limit search h]
    refine ⟨fun hc => absurd hc h, fun _ => ⟨rfl, ?_, ?_⟩, rfl, rfl, ?_, ?_⟩
    · dsimp only
      rw [List.length_map]
      exact slice_length _ ((page - 1) * limit) limit
    · intro i hi
      dsimp only
      rw [List.getElem?_map, slice_getElem _ ((page - 1) * limit) limit i hi]
    · intro ht
      dsimp only at ht ⊢
      simp [ht]
    · intro ht
      dsimp only at ht ⊢
      rw [if_pos ht]
      exact ceil_div_bounds _ limit hlimit ht

/-- C8 witness: 25 chunks, limit 10: page 2 without search returns items
10..19 and total_pages bounds give ceiling 3; a search matching a subset
pages over the filtered set. -/
theorem C8_chunks_pagination_witness :
    ((getKnowledgeBaseChunks true sampleStore25 2 10 "").total = 25 ∧
     (getKnowledgeBaseChunks true sampleStore25 2 10 "").chunks.length
        = min 10 (25 - 10) ∧
     ((getKnowledgeBaseChunks true sampleStore25 2 10 "").chunks[0]?
        = (sampleStore25[10]?).map toChunkInfo)) ∧
    (0 < (getKnowledgeBaseChunks true sampleStore25 2 10 "").total →
      (getKnowledgeBaseChunks true sampleStore25 2 10 "").total
        ≤ 10 * (getKnowledgeBaseChunks true sampleStore25 2 10 "").total_pages ∧
      10 * (getKnowledgeBaseChunks true sampleStore25 2 10 "").total_pages - 10
        < (getKnowledgeBaseChunks true sampleStore25 2 10 "").total) := by
  have hmain := C8_chunks_pagination sampleStore25 2 10 "" (by decide)
  have hempty : strStrip "" = "" := by decide
  refine ⟨⟨?_, ?_, ?_⟩, hmain.2.2.2.2.2⟩
  · have := (hmain.1 hempty).1
    rw [this]
    decide
  · have := (hmain.1 hempty).2.1
    rw [this]
    decide
  · exact (hmain.1 hempty).2.2 0 (by decide)

/-- C10: a no-search page whose offset is at or past the store count comes
back with an empty chunk list while total still reports the full store
count, total_pages keeps its ceiling value, and the requested page and limit
are echoed unchanged. -/
theorem C10_chunks_page_beyond_end (store : List ChunkRecord)
    (page limit : Nat) (search : String) (h : strStrip search = "")
    (hbeyond : store.length ≤ (page - 1) * limit) :
    (getKnowledgeBaseChunks true store page limit search).chunks = [] ∧
    (getKnowledgeBaseChunks true store page limit search).total
      = store.length ∧
    (getKnowledgeBaseChunks true store page limit search).page = page ∧
    (getKnowledgeBaseChunks true store page limit search).limit = limit ∧
    (getKnowledgeBaseChunks true store page limit search).total_pages
      = (if store.length > 0 then (store.length + limit - 1) / limit
         else 0) := by
  rw [getKBChunks_noSearch store page limit search h]
  refine ⟨?_, rfl, rfl, rfl, rfl⟩
  dsimp only
  rw [List.drop_eq_nil_of_le hbeyond]
  simp

/-- C10 witness: page 4 of 25 chunks with limit 10 (offset 30 ≥ 25). -/
theorem C10_chunks_page_beyond_end_witness :
    (getKnowledgeBaseChunks true sampleStore25 4 10 "").chunks = [] ∧
    (getKnowledgeBaseChunks true sampleStore25 4 10 "").total = 25 ∧
    (getKnowledgeBaseChunks true sampleStore25 4 10 "").page = 4 ∧
    (getKnowledgeBaseChunks true sampleStore25 4 10 "").total_pages = 3 := by
  have hmain := C10_chunks_page_beyond_end sampleStore25 4 10 ""
    (by decide) (by decide)
  refine ⟨hmain.1, ?_, hmain.2.2.1, ?_⟩
  · rw [hmain.2.1]; decide
  · rw [hmain.2.2.2.2]; decide

theorem attemptLoop_checks (c f : Nat → Bool) (bm ma : Nat)
    (docs : List ChunkDoc) (r : Nat) (st : IngState) :
    st.checkIdx ≤ (attemptLoop c f bm ma docs r st).2.checkIdx ∧
    ((attemptLoop c f bm ma docs r st).1 ≠ .cancelled →
      ∀ i, st.checkIdx ≤ i →
        i < (attemptLoop c f bm ma docs r st).2.checkIdx → c i = false) ∧
    ((∀ p ∈ st.writeLog, c p.1 = false) →
      ∀ p ∈ (attemptLoop c f bm ma docs r st).2.writeLog, c p.1 = false) := by
  induction r generalizing st with
  | zero =>
      refine ⟨Nat.le_refl _, fun _ i hle hlt => ?_, fun h => h⟩
      exact absurd (Nat.lt_of_le_of_lt hle hlt) (Nat.lt_irrefl _)
  | succ r ih =>
      by_cases hc : c st.checkIdx = true
      · have hred : attemptLoop c f bm ma docs (r + 1) st
            = (.cancelled, { st with checkIdx := st.checkIdx + 1 }) := by
          unfold attemptLoop
          simp [hc]
        rw [hred]
        refine ⟨Nat.le_succ _, fun hne => absurd rfl hne, fun h => h⟩
      · have hcf : c st.checkIdx = false := by
          cases hcc : c st.checkIdx with
          | true => exact absurd hcc hc
          | false => rfl
        by_cases hf : f st.writeIdx = true
        · by_cases hr : r = 0
          · subst hr
            have hred : attemptLoop c f bm ma docs 1 st
                = (.failed, { st with checkIdx := st.checkIdx + 1, writeIdx := st.writeIdx + 1 }) := by
              unfold attemptLoop
              simp [hcf, hf]
            rw [hred]
            refine ⟨Nat.le_succ _, fun _ i hle hlt => ?_, fun h => h⟩
            have : i = st.checkIdx := by
              simp only at hlt
              omega
            rw [this]
            exact hcf
          · have hred : attemptLoop c f bm ma docs (r + 1) st
                = attemptLoop c f bm ma docs r
                    { st with checkIdx := st.checkIdx + 1, writeIdx := st.writeIdx + 1, sleeps := st.sleeps ++ [(ma - r) * bm] } := by
              conv_lhs => unfold attemptLoop
              simp [hcf, hf, hr]
            rw [hred]
            rcases ih { st with checkIdx := st.checkIdx + 1, writeIdx := st.writeIdx + 1, sleeps := st.sleeps ++ [(ma - r) * bm] } with ⟨ih1, ih2, ih3⟩
            refine ⟨Nat.le_trans (Nat.le_succ _) ih1, fun hne i hle hlt => ?_,
              ih3⟩
            by_cases hi : i = st.checkIdx
            · rw [hi]; exact hcf
            · exact ih2 hne i (by simp only at ih1 ⊢; omega) hlt
        · have hff : f st.writeIdx = false := by
            cases hfc : f st.writeIdx with
            | true => exact absurd hfc hf
            | false => rfl
          have hred : attemptLoop c f bm ma docs (r + 1) st
              = (.success,
                 { st with store := st.store ++ docs, checkIdx := st.checkIdx + 1, writeIdx := st.writeIdx + 1, writeLog := st.writeLog ++ [(st.checkIdx, docs)] }) := by
            unfold attemptLoop
            simp [hcf, hff]
          rw [hred]
          refine ⟨Nat.le_succ _, fun _ i hle hlt => ?_, fun h p hp => ?_⟩
          · have : i = st.checkIdx := by
              simp only at hlt
              omega
            rw [this]
            exact hcf
          · simp only [List.mem_append, List.mem_singleton] at hp
            cases hp with
            | inl hmem => exact h p hmem
            | inr hnew => rw [hnew]; exact hcf

theorem batchLoop_checks (c f : Nat → Bool) (bm ma : Nat)
    (mkDocs : Nat × List String → List ChunkDoc)
    (bs : List (Nat × List String)) (st : IngState) :
    st.checkIdx ≤ (batchLoop c f bm ma mkDocs bs st).2.checkIdx ∧
    ((batchLoop c f bm ma mkDocs bs st).1 ≠ .cancelled →
      ∀ i, st.checkIdx ≤ i →
        i < (batchLoop c f bm ma mkDocs bs st).2.checkIdx → c i = false) ∧
    ((∀ p ∈ st.writeLog, c p.1 = false) →
      ∀ p ∈ (batchLoop c f bm ma mkDocs bs st).2.writeLog, c p.1 = false) := by
  induction bs generalizing st with
  | nil =>
      refine ⟨Nat.le_refl _, fun _ i hle hlt => ?_, fun h => h⟩
      exact absurd (Nat.lt_of_le_of_lt hle hlt) (Nat.lt_irrefl _)
  | cons b rest ih =>
      by_cases hc : c st.checkIdx = true
      · have hred : batchLoop c f bm ma mkDocs (b :: rest) st
            = (.cancelled, { st with checkIdx := st.checkIdx + 1 }) := by
          unfold batchLoop
          simp [hc]
        rw [hred]
        refine ⟨Nat.le_succ _, fun hne => absurd rfl hne, fun h => h⟩
      · have hcf : c st.checkIdx = false := by
          cases hcc : c st.checkIdx with
          | true => exact absurd hcc hc
          | false => rfl
        rcases hA : attemptLoop c f bm ma (mkDocs b) ma
            { st with checkIdx := st.checkIdx + 1 } with ⟨out2, st2⟩
        have AL := attemptLoop_checks c f bm ma (mkDocs b) ma
            { st with checkIdx := st.checkIdx + 1 }
        rw [hA] at AL
        dsimp only at AL
        rcases AL with ⟨AL1, AL2, AL3⟩
        cases out2 with
        | success =>
            have hred : batchLoop c f bm ma mkDocs (b :: rest) st
                = batchLoop c f bm ma mkDocs rest st2 := by
              conv_lhs => unfold batchLoop
              simp [hcf, hA]
            rw [hred]
            rcases ih st2 with ⟨ih1, ih2, ih3⟩
            refine ⟨by omega, fun hne i hle hlt => ?_, fun h => ih3 (AL3 h)⟩
            by_cases hi : i = st.checkIdx
            · rw [hi]; exact hcf
            · by_cases hi2 : i < st2.checkIdx
              · exact AL2 (by simp) i (by omega) hi2
              · exact ih2 hne i (by omega) hlt
        | cancelled =>
            have hred : batchLoop c f bm ma mkDocs (b :: rest) st
                = (.cancelled, st2) := by
              conv_lhs => unfold batchLoop
              simp [hcf, hA]
            rw [hred]
            dsimp only
            exact ⟨by omega, fun hne => absurd rfl hne, AL3⟩
        | failed =>
            have hred : batchLoop c f bm ma mkDocs (b :: rest) st
                = (.failed, st2) := by
              conv_lhs => unfold batchLoop
              simp [hcf, hA]
            rw [hred]
            dsimp only
            refine ⟨by omega, fun hne i hle hlt => ?_, AL3⟩
            by_cases hi : i = st.checkIdx
            · rw [hi]; exact hcf
            · exact AL2 (by simp) i (by omega) hlt

theorem fileLoop_checks (c f : Nat → Bool) (bm ma bsPred : Nat)
    (splitter : String → List String) (sourceName jobId : String)
    (files : List (String × String)) (st : IngState) (fp cc : Nat) :
    st.checkIdx ≤ (fileLoop c f bm ma bsPred splitter sourceName jobId files
        st fp cc).2.1.checkIdx ∧
    ((fileLoop c f bm ma bsPred splitter sourceName jobId files st fp cc).1
        ≠ .cancelled →
      ∀ i, st.checkIdx ≤ i →
        i < (fileLoop c f bm ma bsPred splitter sourceName jobId files st fp
            cc).2.1.checkIdx → c i = false) ∧
    ((∀ p ∈ st.writeLog, c p.1 = false) →
      ∀ p ∈ (fileLoop c f bm ma bsPred splitter sourceName jobId files st fp
          cc).2.1.writeLog, c p.1 = false) := by
  induction files generalizing st fp cc with
  | nil =>
      refine ⟨Nat.le_refl _, fun _ i hle hlt => ?_, fun h => h⟩
      exact absurd (Nat.lt_of_le_of_lt hle hlt) (Nat.lt_irrefl _)
  | cons file rest ih =>
      rcases file with ⟨fileName, content⟩
      by_cases hemp : strStrip content = ""
      · have hred : fileLoop c f bm ma bsPred splitter sourceName jobId
            ((fileName, content) :: rest) st fp cc
            = fileLoop c f bm ma bsPred splitter sourceName jobId rest st fp
                cc := by
          conv_lhs => unfold fileLoop
          simp [hemp]
        rw [hred]
        exact ih st fp cc
      · rcases hB : batchLoop c f bm ma
            (mkBatchDocs sourceName fileName jobId (splitter content).length)
            (mkBatches bsPred (splitter content) 0) st with ⟨out2, st2⟩
        have BL := batchLoop_checks c f bm ma
            (mkBatchDocs sourceName fileName jobId (splitter content).length)
            (mkBatches bsPred (splitter content) 0) st
        rw [hB] at BL
        dsimp only at BL
        rcases BL with ⟨BL1, BL2, BL3⟩
        cases out2 with
        | success =>
            have hred : fileLoop c f bm ma bsPred splitter sourceName jobId
                ((fileName, content) :: rest) st fp cc
                = fileLoop c f bm ma bsPred splitter sourceName jobId rest
                    st2 (fp + 1) (cc + (splitter content).length) := by
              conv_lhs => unfold fileLoop
              simp [hemp, hB]
            rw [hred]
            rcases ih st2 (fp + 1) (cc + (splitter content).length)
              with ⟨ih1, ih2, ih3⟩
            refine ⟨by omega, fun hne i hle hlt => ?_, fun h => ih3 (BL3 h)⟩
            by_cases hi : i < st2.checkIdx
            · exact BL2 (by simp) i hle hi
            · exact ih2 hne i (by omega) hlt
        | cancelled =>
            have hred : fileLoop c f bm ma bsPred splitter sourceName jobId
                ((fileName, content) :: rest) st fp cc
                = (.cancelled, st2, fp, cc) := by
              conv_lhs => unfold fileLoop
              simp [hemp, hB]
            rw [hred]
            exact ⟨BL1, fun hne => absurd rfl hne, BL3⟩
        | failed =>
            have hred : fileLoop c f bm ma bsPred splitter sourceName jobId
                ((fileName, content) :: rest) st fp cc
                = (.failed, st2, fp, cc) := by
              conv_lhs => unfold fileLoop
              simp [hemp, hB]
            rw [hred]
            exact ⟨BL1, fun _ i hle hlt => BL2 (by simp) i hle hlt, BL3⟩

theorem attemptLoop_writeIdx_le (c f : Nat → Bool) (bm ma : Nat)
    (docs : List ChunkDoc) :
    ∀ (r : Nat) (st : IngState),
      (attemptLoop c f bm ma docs r st).2.writeIdx ≤ st.writeIdx + r := by
  intro r
  induction r with
  | zero =>
      intro st
      simp [attemptLoop]
  | succ r ih =>
      intro st
      by_cases hc : c st.checkIdx = true
      · have hred : attemptLoop c f bm ma docs (r + 1) st
            = (.cancelled, { st with checkIdx := st.checkIdx + 1 }) := by
          unfold attemptLoop
          simp [hc]
        rw [hred]
        dsimp only
        omega
      · have hcf : c st.checkIdx = false := by
          cases hcc : c st.checkIdx with
          | true => exact absurd hcc hc
          | false => rfl
        by_cases hf : f st.writeIdx = true
        · by_cases hr : r = 0
          · subst hr
            have hred : attemptLoop c f bm ma docs 1 st
                = (.failed, { st with checkIdx := st.checkIdx + 1, writeIdx := st.writeIdx + 1 }) := by
              unfold attemptLoop
              simp [hcf, hf]
            rw [hred]
          · have hred : attemptLoop c f bm ma docs (r + 1) st
                = attemptLoop c f bm ma docs r
                    { st with checkIdx := st.checkIdx + 1, writeIdx := st.writeIdx + 1, sleeps := st.sleeps ++ [(ma - r) * bm] } := by
              conv_lhs => unfold attemptLoop
              simp [hcf, hf, hr]
            rw [hred]
            have := ih { st with checkIdx := st.checkIdx + 1, writeIdx := st.writeIdx + 1, sleeps := st.sleeps ++ [(ma - r) * bm] }
            dsimp only at this
            omega
        · have hff : f st.writeIdx = false := by
            cases hfc : f st.writeIdx with
            | true => exact absurd hfc hf
            | false => rfl
          have hred : attemptLoop c f bm ma docs (r + 1) st
              = (.success,
                 { st with store := st.store ++ docs, checkIdx := st.checkIdx + 1, writeIdx := st.writeIdx + 1, writeLog := st.writeLog ++ [(st.checkIdx, docs)] }) := by
            unfold attemptLoop
            simp [hcf, hff]
          rw [hred]
          dsimp only
          omega

/-- C6: the retry loop of perform_ingestion. (1) Each batch invokes the
vector-store write at most `remaining` times, so at most the attempt ceiling
when entered with it. (2) A failure on a non-final attempt is followed by a
backoff sleep of (attempt number) * multiplier and a retry with one fewer
attempt remaining (when `remaining = r + 2`, the 1-based attempt number is
maxAttempts - (r + 1)). (3) A failure on the final attempt propagates the
error with no further sleep or retry. (4) With the spec's ceiling of 3, a
write that fails twice then succeeds makes exactly 3 invocations, ends in
success (no escalated error), and sleeps 1x and 2x the multiplier. -/
theorem C6_retry_backoff :
    (∀ (c f : Nat → Bool) (bm ma : Nat) (docs : List ChunkDoc) (r : Nat)
        (st : IngState),
      (attemptLoop c f bm ma docs r st).2.writeIdx ≤ st.writeIdx + r) ∧
    (∀ (c f : Nat → Bool) (bm ma : Nat) (docs : List ChunkDoc) (r : Nat)
        (st : IngState), c st.checkIdx = false → f st.writeIdx = true →
      attemptLoop c f bm ma docs (r + 2) st
        = attemptLoop c f bm ma docs (r + 1)
            { st with checkIdx := st.checkIdx + 1, writeIdx := st.writeIdx + 1, sleeps := st.sleeps ++ [(ma - (r + 1)) * bm] }) ∧
    (∀ (c f : Nat → Bool) (bm ma : Nat) (docs : List ChunkDoc)
        (st : IngState), c st.checkIdx = false → f st.writeIdx = true →
      attemptLoop c f bm ma docs 1 st
        = (.failed, { st with checkIdx := st.checkIdx + 1, writeIdx := st.writeIdx + 1 })) ∧
    (attemptLoop (fun _ => false) (fun n => decide (n < 2)) 5
        MAX_RETRY_ATTEMPTS sampleDocs MAX_RETRY_ATTEMPTS ⟨[], 0, 0, [], []⟩
      = (.success, ⟨sampleDocs, 3, 3, [(2, sampleDocs)], [5, 10]⟩)) := by
  refine ⟨attemptLoop_writeIdx_le, ?_, ?_, by decide⟩
  · intro c f bm ma docs r st hcf hf
    conv_lhs => unfold attemptLoop
    simp [hcf, hf]
  · intro c f bm ma docs st hcf hf
    unfold attemptLoop
    simp [hcf, hf]

/-- C6 witness: conjunct 1 at a concrete state; a concrete non-final failure
sleeping (attempt)*multiplier then retrying; a concrete final-attempt
failure propagating. -/
theorem C6_retry_backoff_witness :
    ((attemptLoop (fun _ => false) (fun _ => true) 7 3 [] 3
        ⟨[], 0, 0, [], []⟩).2.writeIdx ≤ 0 + 3) ∧
    (attemptLoop (fun _ => false) (fun _ => true) 7 3 [] (0 + 2)
        ⟨[], 0, 0, [], []⟩
      = attemptLoop (fun _ => false) (fun _ => true) 7 3 [] (0 + 1)
          ⟨[], 1, 1, [], [14]⟩) ∧
    (attemptLoop (fun _ => false) (fun _ => true) 7 3 [] 1 ⟨[], 5, 6, [], []⟩
      = (.failed, ⟨[], 6, 7, [], []⟩)) :=
  ⟨C6_retry_backoff.1 (fun _ => false) (fun _ => true) 7 3 [] 3
      ⟨[], 0, 0, [], []⟩,
   C6_retry_backoff.2.1 (fun _ => false) (fun _ => true) 7 3 [] 0
      ⟨[], 0, 0, [], []⟩ rfl rfl,
   C6_retry_backoff.2.2.1 (fun _ => false) (fun _ => true) 7 3 []
      ⟨[], 5, 6, [], []⟩ rfl rfl⟩

/-- C1: cancellation handling of perform_ingestion. (1) If the job status
reads CANCELLED at any cancellation checkpoint the run actually reaches (a
between-batch checkpoint or the check before a write attempt), the pipeline
returns the distinguished cancelled result — not the ok result and not a
re-raised exception. (2) On the cancelled outcome the delete-by-job_id
rollback has run: no chunk tagged with this job survives in the store, so in
particular nothing written from the cancelled batch onward remains. (3)
Every batch that was successfully written was guarded by a checkpoint that
observed a non-cancelled status: no write happens at or after the checkpoint
that observes the cancellation. -/
theorem C1_cancellation (c f : Nat → Bool) (bm ma bsPred : Nat)
    (splitter : String → List String) (files : List (String × String))
    (sourceName jobId : String) (store0 : List ChunkDoc) :
    ((∃ i, i < (performIngestion c f bm ma bsPred splitter files sourceName
        jobId store0).2.checkIdx ∧ c i = true) →
      (performIngestion c f bm ma bsPred splitter files sourceName jobId
          store0).1 = .cancelled) ∧
    ((performIngestion c f bm ma bsPred splitter files sourceName jobId
        store0).1 = .cancelled →
      ∀ d ∈ (performIngestion c f bm ma bsPred splitter files sourceName
          jobId store0).2.store, d.job_id ≠ jobId) ∧
    (∀ p ∈ (performIngestion c f bm ma bsPred splitter files sourceName
        jobId store0).2.writeLog, c p.1 = false) := by
  rcases hrun : fileLoop c f bm ma bsPred splitter sourceName jobId files
      ⟨store0, 0, 0, [], []⟩ 0 0 with ⟨out, st, fp, cc⟩
  have FL := fileLoop_checks c f bm ma bsPred splitter sourceName jobId
      files ⟨store0, 0, 0, [], []⟩ 0 0
  rw [hrun] at FL
  dsimp only at FL
  rcases FL with ⟨FL1, FL2, FL3⟩
  have hlog0 : ∀ p ∈ ([] : List (Nat × List ChunkDoc)), c p.1 = false := by
    intro p hp
    simp at hp
  cases out with
  | success =>
      have hred : performIngestion c f bm ma bsPred splitter files sourceName
          jobId store0 = (.ok fp cc, st) := by
        unfold performIngestion
        rw [hrun]
      rw [hred]
      dsimp only
      refine ⟨?_, ?_, FL3 hlog0⟩
      · rintro ⟨i, hi, hci⟩
        have := FL2 (by simp) i (Nat.zero_le _) hi
        rw [this] at hci
        exact absurd hci (by simp)
      · intro h
        simp at h
  | cancelled =>
      have hred : performIngestion c f bm ma bsPred splitter files sourceName
          jobId store0
          = (.cancelled, { st with store := rollbackByJob jobId st.store }) := by
        unfold performIngestion
        rw [hrun]
      rw [hred]
      dsimp only
      refine ⟨fun _ => rfl, fun _ d hd => ?_, FL3 hlog0⟩
      have := List.of_mem_filter hd
      simpa using this
  | failed =>
      have hred : performIngestion c f bm ma bsPred splitter files sourceName
          jobId store0
          = (.err, { st with store := rollbackByJob jobId st.store }) := by
        unfold performIngestion
        rw [hrun]
      rw [hred]
      dsimp only
      refine ⟨?_, ?_, FL3 hlog0⟩
      · rintro ⟨i, hi, hci⟩
        have := FL2 (by simp) i (Nat.zero_le _) hi
        rw [this] at hci
        exact absurd hci (by simp)
      · intro h
        simp at h

/-- C1 witness: with the status already CANCELLED at the first checkpoint,
ingesting one non-empty file ends cancelled with an empty store for the job. -/
theorem C1_cancellation_witness :
    (performIngestion (fun _ => true) (fun _ => false) 5 3 0 (fun s => [s])
        [("a.txt", "hello")] "" "J" []).1 = .cancelled ∧
    ∀ d ∈ (performIngestion (fun _ => true) (fun _ => false) 5 3 0
        (fun s => [s]) [("a.txt", "hello")] "" "J" []).2.store,
      d.job_id ≠ "J" :=
  have h1 : (performIngestion (fun _ => true) (fun _ => false) 5 3 0
      (fun s => [s]) [("a.txt", "hello")] "" "J" []).1 = .cancelled :=
    (C1_cancellation (fun _ => true) (fun _ => false) 5 3 0 (fun s => [s])
      [("a.txt", "hello")] "" "J" []).1 ⟨0, by decide, rfl⟩
  ⟨h1, (C1_cancellation (fun _ => true) (fun _ => false) 5 3 0 (fun s => [s])
      [("a.txt", "hello")] "" "J" []).2.1 h1⟩

end Langflow
